import Mathlib

/-!
# Verification of the event-driven backtesting core of ForexStrategies

Shallow embedding of `event_driven_trading/{data,backtest,mac,intraday_mr,
ib_execution}.py`.  Pure Python methods become Lean functions; methods that
mutate `self` become functions from the object state to a new state together
with the list of events they put on the shared queue; Python exceptions become
`Except PyError`.  Real (float) arithmetic is modelled exactly over `ℚ`;
wall-clock timestamps (`datetime.datetime.utcnow()`) are modelled as the
constant `0` since no verified property reads them.
-/

set_option autoImplicit false

/-- Python exceptions that the modelled code can raise.  In Python both
`KeyError` and `IndexError` are subclasses of `LookupError`. -/
inductive PyError where
  | keyError
  | indexError
  deriving DecidableEq, Repr

/-- Signal directions used at the `SignalEvent` construction sites in
`mac.py` and `intraday_mr.py` (the strings `'LONG'`, `'SHORT'`, `'EXIT'`). -/
inductive Direction where
  | LONG
  | SHORT
  | EXIT
  deriving DecidableEq, Repr

/-- Modelled from the spec: `event.py` is not under `src/`; the spec (§2, §3)
describes a closed tagged variant {Market, Signal, Order, Fill}.  The field
lists below follow the constructor calls in `mac.py`, `intraday_mr.py` and
`ib_execution.py`: `SignalEvent(strategy_id, symbol, datetime, signal_type,
strength)`. -/
structure SignalEvent where
  strategy_id : Nat
  symbol : String
  datetime : Nat
  signal_type : Direction
  strength : ℚ
  deriving DecidableEq, Repr

/-- Modelled from the spec: order events per spec §3
({symbol, order_type, quantity, direction}). -/
structure OrderEvent where
  symbol : String
  order_type : String
  quantity : Nat
  direction : String
  deriving DecidableEq, Repr

/-- Modelled from the spec: fill events; fields follow the constructor call in
`ib_execution.py`: `FillEvent(utcnow, symbol, exchange, filled, direction,
fill_cost)`. -/
structure FillEvent where
  timeindex : Nat
  symbol : String
  exchange : String
  quantity : Nat
  direction : String
  fill_cost : ℚ
  deriving DecidableEq, Repr

/-- Modelled from the spec: the closed event variant (§2).  The Python code
tags events with `type` strings `'MARKET'`/`'SIGNAL'`/`'ORDER'`/`'FILL'`;
matching on the constructor models matching on that tag. -/
inductive Event where
  | market
  | signal (s : SignalEvent)
  | order (o : OrderEvent)
  | fill (f : FillEvent)
  deriving DecidableEq, Repr

/-- One OHLCV(+adjusted close) bar.  In the Python code a bar is the pair
`(timestamp, row)` yielded by `DataFrame.iterrows()`; `bar[0]` is the
timestamp and `getattr(bar[1], field)` reads a named column. -/
structure Bar where
  datetime : Nat
  op : ℚ
  high : ℚ
  low : ℚ
  close : ℚ
  volume : ℚ
  adj_close : ℚ
  deriving DecidableEq, Repr

/-- The column names of the loaded CSV frame
(`['datetime','open','high','low','close','volume','adj_close']`). -/
inductive BarField where
  | op
  | high
  | low
  | close
  | volume
  | adj_close
  deriving DecidableEq, Repr

/-- `getattr(row, val_type)` for the enumerated columns. -/
def getField (f : BarField) (b : Bar) : ℚ :=
  match f with
  | .op => b.op
  | .high => b.high
  | .low => b.low
  | .close => b.close
  | .volume => b.volume
  | .adj_close => b.adj_close

/-- Python dictionary lookup `d.get(k)` on a dict modelled as an association
list: `none` when the key is absent. -/
def alookup {κ α : Type} [DecidableEq κ] : List (κ × α) → κ → Option α
  | [], _ => none
  | (k, v) :: t, s => if k = s then some v else alookup t s

/-- Python dictionary assignment `d[k] = v`: replaces the first binding of `k`
or appends a fresh one. -/
def aset {κ α : Type} [DecidableEq κ] : List (κ × α) → κ → α → List (κ × α)
  | [], k, v => [(k, v)]
  | (k', v') :: t, k, v =>
      if k' = k then (k, v) :: t else (k', v') :: aset t k v

theorem alookup_aset_self {κ α : Type} [DecidableEq κ]
    (l : List (κ × α)) (k : κ) (v : α) :
    alookup (aset l k v) k = some v := by
  induction l with
  | nil => simp [aset, alookup]
  | cons h t ih =>
      obtain ⟨k', v'⟩ := h
      by_cases hk : k' = k
      · simp [aset, hk, alookup]
      · simp [aset, hk, alookup, ih]

theorem alookup_aset_ne {κ α : Type} [DecidableEq κ]
    (l : List (κ × α)) (k k' : κ) (v : α)
    (h : k ≠ k') : alookup (aset l k v) k' = alookup l k' := by
  induction l with
  | nil => simp [aset, alookup, h]
  | cons hd t ih =>
      obtain ⟨k₀, v₀⟩ := hd
      by_cases hk : k₀ = k
      · subst hk
        simp [aset, alookup, h]
      · simp only [aset, if_neg hk, alookup]
        by_cases hk' : k₀ = k'
        · simp [hk']
        · simp [hk', ih]

/-- The Python tail slice `l[-N:]` (for a list index): for `N = 0` it is
`l[0:] = l`, otherwise the last `min N (length l)` elements (negative start
indices clamp to the head). -/
def pyLastSlice {α : Type} (l : List α) (n : Nat) : List α :=
  if n = 0 then l else l.drop (l.length - n)

/-- `np.mean` over exact rationals: sum divided by length (the modelled code
only applies it to nonempty slices). -/
def qmean (l : List ℚ) : ℚ := l.sum / l.length

namespace HistoricCSVDataHandler

/-- State of `HistoricCSVDataHandler` after `_open_convert_csv_files`:
`symbol_data` holds, per symbol, the still-unconsumed reindexed rows (the
`iterrows` iterator), `latest_symbol_data` the observed-history lists, and
`continue_backtest` the exhaustion flag (`True` at construction). -/
structure State where
  symbol_list : List String
  symbol_data : List (String × List Bar)
  latest_symbol_data : List (String × List Bar)
  continue_backtest : Bool
  deriving DecidableEq, Repr

/-- `get_latest_bar(symbol)`: `latest_symbol_data[symbol]` (KeyError when the
symbol is untracked, re-raised by the `except KeyError` block), then
`bars_list[-1]` (IndexError on an empty history). -/
def get_latest_bar (st : State) (symbol : String) : Except PyError Bar :=
  match alookup st.latest_symbol_data symbol with
  | none => .error .keyError
  | some bars_list =>
      match bars_list.getLast? with
      | none => .error .indexError
      | some b => .ok b

/-- `get_latest_bars(symbol, N)`: KeyError for an untracked symbol, otherwise
`bars_list[-N:] if bars_list else []`. -/
def get_latest_bars (st : State) (symbol : String) (n : Nat) :
    Except PyError (List Bar) :=
  match alookup st.latest_symbol_data symbol with
  | none => .error .keyError
  | some bars_list =>
      .ok (if bars_list.isEmpty then [] else pyLastSlice bars_list n)

/-- `get_latest_bar_value(symbol, val_type)`: KeyError for an untracked
symbol, otherwise `getattr(bars_list[-1][1], val_type) if bars_list else
None`. -/
def get_latest_bar_value (st : State) (symbol : String) (f : BarField) :
    Except PyError (Option ℚ) :=
  match alookup st.latest_symbol_data symbol with
  | none => .error .keyError
  | some bars_list =>
      .ok (bars_list.getLast?.map (getField f))

/-- `get_latest_bars_values(symbol, val_type, N)`: delegates to
`get_latest_bars` (re-raising its KeyError) and maps the field accessor over
the returned bars. -/
def get_latest_bars_values (st : State) (symbol : String) (f : BarField)
    (n : Nat) : Except PyError (List ℚ) :=
  match get_latest_bars st symbol n with
  | .error e => .error e
  | .ok bars_list => .ok (bars_list.map (getField f))

/-- `get_latest_bar_datetime(symbol)`: explicit KeyError for an untracked
symbol, then `bars_list[-1][0]` (IndexError on an empty history). -/
def get_latest_bar_datetime (st : State) (symbol : String) :
    Except PyError Nat :=
  match alookup st.latest_symbol_data symbol with
  | none => .error .keyError
  | some bars_list =>
      match bars_list.getLast? with
      | none => .error .indexError
      | some b => .ok b.datetime

/-- One iteration of the `for s in self.symbol_list` body of `update_bars`:
`next(self._get_new_bar(s))` pops the next row of the shared iterator
(`StopIteration` on exhaustion sets `continue_backtest = False`), otherwise
the row is appended to `latest_symbol_data[s]`.  A missing dictionary key
would raise a KeyError in Python; construction makes both dictionaries total
on `symbol_list`. -/
def updateBarsSym (st : State) (s : String) : Except PyError State :=
  match alookup st.symbol_data s with
  | none => .error .keyError
  | some [] => .ok { st with continue_backtest := false }
  | some (b :: rest) =>
      match alookup st.latest_symbol_data s with
      | none => .error .keyError
      | some l =>
          .ok { st with
                  symbol_data := aset st.symbol_data s rest,
                  latest_symbol_data := aset st.latest_symbol_data s (l ++ [b]) }

/-- The `for s in self.symbol_list` loop of `update_bars`. -/
def updateBarsLoop (syms : List String) (st : State) : Except PyError State :=
  match syms with
  | [] => .ok st
  | s :: rest =>
      match updateBarsSym st s with
      | .error e => .error e
      | .ok st' => updateBarsLoop rest st'

/-- `update_bars()`: advance every tracked symbol, then — unconditionally, on
the line after the loop — `self.events.put(MarketEvent())`.  The returned list
is what the call puts on the event queue. -/
def update_bars (st : State) : Except PyError (State × List Event) :=
  match updateBarsLoop st.symbol_list st with
  | .error e => .error e
  | .ok st' => .ok (st', [Event.market])

end HistoricCSVDataHandler

namespace MovingAverageCrossStrategy

/-- The values stored in the `bought` dictionary of
`MovingAverageCrossStrategy`: the initializer stores the string `'OUT'`, the
signal branches store the booleans `True` / `False`. -/
inductive BoughtVal where
  | out
  | pytrue
  | pyfalse
  deriving DecidableEq, Repr

/-- Python truthiness of a `bought` value, as tested by
`not self.bought[symbol]` and `self.bought[symbol]`: the nonempty string
`'OUT'` is truthy. -/
def truthy : BoughtVal → Bool
  | .out => true
  | .pytrue => true
  | .pyfalse => false

/-- State of `MovingAverageCrossStrategy` (defaults
`short_window=100, long_window=400`). -/
structure State where
  symbol_list : List String
  short_window : Nat
  long_window : Nat
  bought : List (String × BoughtVal)
  deriving DecidableEq, Repr

/-- `_calculate_initial_bought`: every tracked symbol maps to `'OUT'`. -/
def _calculate_initial_bought (symbol_list : List String) :
    List (String × BoughtVal) :=
  symbol_list.map (fun s => (s, BoughtVal.out))

/-- The loop body of `calculate_signals` for one `symbol`: fetch the last
`long_window` adjusted closes and the latest bar datetime (either fetch can
raise), then, when `bars.size > 0`, compare the short/long simple means and
emit at most one signal.  `dt = datetime.datetime.utcnow()` is modelled as
`0`. -/
def calcSignalsSym (bars_dh : HistoricCSVDataHandler.State)
    (st : State) (symbol : String) : Except PyError (State × List Event) :=
  match HistoricCSVDataHandler.get_latest_bars_values bars_dh symbol
      BarField.adj_close st.long_window with
  | .error e => .error e
  | .ok bars =>
      match HistoricCSVDataHandler.get_latest_bar_datetime bars_dh symbol with
      | .error e => .error e
      | .ok _bar_date =>
          if 0 < bars.length then
            let short_sma := qmean (pyLastSlice bars st.short_window)
            let long_sma := qmean (pyLastSlice bars st.long_window)
            let dt : Nat := 0
            match alookup st.bought symbol with
            | none => .error .keyError
            | some b =>
                if short_sma > long_sma ∧ truthy b = false then
                  .ok ({ st with bought := aset st.bought symbol .pytrue },
                       [Event.signal ⟨1, symbol, dt, .LONG, 1⟩])
                else if short_sma < long_sma ∧ truthy b = true then
                  .ok ({ st with bought := aset st.bought symbol .pyfalse },
                       [Event.signal ⟨1, symbol, dt, .EXIT, 1⟩])
                else .ok (st, [])
          else .ok (st, [])

/-- The `for symbol in self.symbol_list` loop of `calculate_signals`.  In
Python, signals already put on the queue stay there when a later symbol
raises, so the loop returns the events emitted so far together with the
escaping exception (if any). -/
def calcSignalsLoop (bars_dh : HistoricCSVDataHandler.State) :
    List String → State → State × List Event × Option PyError
  | [], st => (st, [], none)
  | s :: rest, st =>
      match calcSignalsSym bars_dh st s with
      | .error e => (st, [], some e)
      | .ok (st', evs) =>
          let r := calcSignalsLoop bars_dh rest st'
          (r.1, evs ++ r.2.1, r.2.2)

/-- `calculate_signals(event)`: a no-op unless `event.type == 'MARKET'`. -/
def calculate_signals (bars_dh : HistoricCSVDataHandler.State) (st : State)
    (event : Event) : State × List Event × Option PyError :=
  match event with
  | .market => calcSignalsLoop bars_dh st.symbol_list st
  | _ => (st, [], none)

end MovingAverageCrossStrategy

namespace IntradayOLSMRStrategy

/-- State of `IntradayOLSMRStrategy` (defaults `ols_window=100,
zscore_low=0.5, zscore_high=3.0`; `pair = ('AREX','WLL')`).  In Python
`self.hedge_ratio` is an attribute first assigned inside
`calculate_signals_for_pairs`; it is modelled as a field, and
`calculate_xy_signals` is only ever applied after that assignment. -/
structure State where
  ols_window : Nat
  zscore_low : ℚ
  zscore_high : ℚ
  pair : String × String
  long_market : Bool
  short_market : Bool
  hedge_ratio : ℚ
  deriving DecidableEq, Repr

/-- `calculate_xy_signals(zscore_last)`: the four `if`/`elif` transition
rules, returning the updated flags and the optional (y, x) signal pair.
`dt = self.datetime` is modelled as `0`. -/
def calculate_xy_signals (st : State) (zscore_last : ℚ) :
    State × Option SignalEvent × Option SignalEvent :=
  let p0 := st.pair.1
  let p1 := st.pair.2
  let dt : Nat := 0
  let hr := |st.hedge_ratio|
  if zscore_last ≤ -st.zscore_high ∧ st.long_market = false then
    ({ st with long_market := true },
     some ⟨1, p0, dt, .LONG, 1⟩, some ⟨1, p1, dt, .SHORT, hr⟩)
  else if |zscore_last| ≤ st.zscore_low ∧ st.long_market = true then
    ({ st with long_market := false },
     some ⟨1, p0, dt, .EXIT, 1⟩, some ⟨1, p1, dt, .EXIT, 1⟩)
  else if zscore_last ≥ st.zscore_high ∧ st.short_market = false then
    ({ st with short_market := true },
     some ⟨1, p0, dt, .SHORT, 1⟩, some ⟨1, p1, dt, .LONG, hr⟩)
  else if |zscore_last| ≤ st.zscore_low ∧ st.short_market = true then
    ({ st with short_market := false },
     some ⟨1, p0, dt, .EXIT, 1⟩, some ⟨1, p1, dt, .EXIT, 1⟩)
  else (st, none, none)

/-- `calculate_signals_for_pairs()`.  The bar source of this strategy is
`HistoricCSVDataHandlerHFT` (`hft_data.py`, not under `src/`), so the
`get_latest_bars_values` reads are abstracted into `getValues`; likewise the
floating-point statistics (`sm.OLS(y, x).fit().params[0]` and the rolling
residual z-score of `spread = y - hedge_ratio * x`) are abstracted into
`hedgeFn` and `zscoreFn`.  The guard `len(y) >= ols_window and
len(x) >= ols_window`, the assignment to `self.hedge_ratio`, and the
"put both signals or neither" emission are modelled exactly. -/
def calculate_signals_for_pairs
    (getValues : String → Nat → Except PyError (List ℚ))
    (hedgeFn : List ℚ → List ℚ → ℚ)
    (zscoreFn : List ℚ → List ℚ → ℚ → ℚ)
    (st : State) : Except PyError (State × List Event) :=
  match getValues st.pair.1 st.ols_window with
  | .error e => .error e
  | .ok y =>
      match getValues st.pair.2 st.ols_window with
      | .error e => .error e
      | .ok x =>
          if st.ols_window ≤ y.length ∧ st.ols_window ≤ x.length then
            let hr := hedgeFn y x
            let st1 := { st with hedge_ratio := hr }
            let zscore_last := zscoreFn y x hr
            match calculate_xy_signals st1 zscore_last with
            | (st2, some y_signal, some x_signal) =>
                .ok (st2, [Event.signal y_signal, Event.signal x_signal])
            | (st2, _, _) => .ok (st2, [])
          else .ok (st, [])

/-- `calculate_signals(event)`: a no-op unless `event.type == 'MARKET'`. -/
def calculate_signals
    (getValues : String → Nat → Except PyError (List ℚ))
    (hedgeFn : List ℚ → List ℚ → ℚ)
    (zscoreFn : List ℚ → List ℚ → ℚ → ℚ)
    (st : State) (event : Event) : Except PyError (State × List Event) :=
  match event with
  | .market => calculate_signals_for_pairs getValues hedgeFn zscoreFn st
  | _ => .ok (st, [])

end IntradayOLSMRStrategy

namespace IBExecutionHandler

/-- One value of the `fill_dict`: the per-order metadata created by
`create_fill_dict_entry`. -/
structure FillEntry where
  symbol : String
  exchange : String
  direction : String
  filled : Bool
  deriving DecidableEq, Repr

/-- The mutable state of `IBExecutionHandler` that the reply path touches:
the fill-state table keyed by order id and the session order id. -/
structure State where
  fill_dict : List (Nat × FillEntry)
  order_id : Nat
  deriving DecidableEq, Repr

/-- The asynchronous server messages dispatched to the reply handler,
carrying the attributes the handler reads. -/
inductive IBMessage where
  | openOrder (orderId : Nat) (symbol exchange action : String)
  | orderStatus (orderId : Nat) (status : String) (filledQty : Nat)
      (avgFillPrice : ℚ)
  | other
  deriving DecidableEq, Repr

/-- `create_fill_dict_entry(msg)`: record the per-order metadata with
`filled = False`. -/
def create_fill_dict_entry (st : State) (orderId : Nat)
    (symbol exchange action : String) : State :=
  let fd : FillEntry := ⟨symbol, exchange, action, false⟩
  { st with fill_dict := aset st.fill_dict orderId fd }

/-- `create_fill(msg)`: read the entry (`self.fill_dict[msg.orderId]`, a
KeyError when absent), build the `FillEvent`, set the entry's `filled` flag
to `True`, and put the event on the queue. -/
def create_fill (st : State) (orderId : Nat) (filledQty : Nat)
    (avgFillPrice : ℚ) : Except PyError (State × List Event) :=
  match alookup st.fill_dict orderId with
  | none => .error .keyError
  | some fd =>
      let fill_event : FillEvent :=
        ⟨0, fd.symbol, fd.exchange, filledQty, fd.direction, avgFillPrice⟩
      let newDict := aset st.fill_dict orderId { fd with filled := true }
      .ok ({ st with fill_dict := newDict }, [Event.fill fill_event])

/-- `_reply_handler(msg)`.  `not self.fill_dict.get(msg.orderId)` is true
exactly when the id is absent (the stored entry dicts are nonempty, hence
truthy); `.get(msg.orderId, dict()).get("filled") is False` is true exactly
when an entry exists and its `filled` flag is the boolean `False`.  The
source invokes the helpers through the names `self._create_fill_dict_entry` /
`self._create_fill`, which do not exist on the class (the methods are defined
without the leading underscore); the model resolves them to the defined
methods, which is the only possible intent.  The third component of the
result records the order id for each `create_fill` invocation. -/
def replyHandler (st : State) (msg : IBMessage) :
    Except PyError (State × List Event × List Nat) :=
  match msg with
  | .openOrder orderId symbol exchange action =>
      if orderId = st.order_id ∧ (alookup st.fill_dict orderId).isNone then
        .ok (create_fill_dict_entry st orderId symbol exchange action, [], [])
      else .ok (st, [], [])
  | .orderStatus orderId status filledQty avgFillPrice =>
      if status = "Filled" ∧
          (alookup st.fill_dict orderId).map FillEntry.filled = some false then
        match create_fill st orderId filledQty avgFillPrice with
        | .error e => .error e
        | .ok (st', evs) => .ok (st', evs, [orderId])
      else .ok (st, [], [])
  | .other => .ok (st, [], [])

/-- A whole session of server replies, accumulating the emitted events and
the order ids of the created fills; an escaping exception stops the
session. -/
def processMessages : List IBMessage → State → State × List Event × List Nat
  | [], st => (st, [], [])
  | m :: rest, st =>
      match replyHandler st m with
      | .error _ => (st, [], [])
      | .ok (st1, evs, ids) =>
          let r := processMessages rest st1
          (r.1, evs ++ r.2.1, ids ++ r.2.2)

end IBExecutionHandler

namespace Backtest

/-- The four collaborating roles wired into the orchestrator, abstracted over
their internal state types (`σS` strategy, `σP` portfolio, `σE` execution,
`δ` bar source).  Each handler returns its new state and the events it puts
on the queue, mirroring the methods invoked by `_run_backtest` and the
`_handle_*` dispatchers. -/
structure Components (σS σP σE δ : Type) where
  calculate_signals : δ → σS → Event → σS × List Event
  update_timeindex : δ → σP → Event → σP × List Event
  update_signal : δ → σP → Event → σP × List Event
  update_fill : δ → σP → Event → σP × List Event
  execute_order : δ → σE → Event → σE × List Event
  update_bars : δ → δ × List Event
  continue_backtest : δ → Bool

/-- The orchestrator state: the FIFO event queue plus the four component
states and the `signals`/`orders`/`fills` counters of `Backtest`. -/
structure RunState (σS σP σE δ : Type) where
  queue : List Event
  strategy : σS
  portfolio : σP
  execution : σE
  data_handler : δ
  signals : Nat
  orders : Nat
  fills : Nat

/-- The body of the inner `while True` loop for one popped event: the
`if/elif` dispatch on `event.type`.  A `'MARKET'` event goes to
`_handle_market_event` (strategy `calculate_signals`, then portfolio
`update_timeindex`); `'SIGNAL'` to `_handle_signal_event` (count, portfolio
`update_signal`); `'ORDER'` to `_handle_order_event` (count, execution
`execute_order`); `'FILL'` to `_handle_fill_event` (count, portfolio
`update_fill`).  Returns the new state and the events the handlers put on
the queue (also appended to the queue, in put order). -/
def handleEvent {σS σP σE δ : Type} (C : Components σS σP σE δ)
    (st : RunState σS σP σE δ) (e : Event) :
    RunState σS σP σE δ × List Event :=
  match e with
  | .market =>
      let r1 := C.calculate_signals st.data_handler st.strategy e
      let r2 := C.update_timeindex st.data_handler st.portfolio e
      ({ st with strategy := r1.1, portfolio := r2.1,
                 queue := st.queue ++ (r1.2 ++ r2.2) },
       r1.2 ++ r2.2)
  | .signal _ =>
      let r := C.update_signal st.data_handler st.portfolio e
      ({ st with portfolio := r.1, queue := st.queue ++ r.2,
                 signals := st.signals + 1 },
       r.2)
  | .order _ =>
      let r := C.execute_order st.data_handler st.execution e
      ({ st with execution := r.1, queue := st.queue ++ r.2,
                 orders := st.orders + 1 },
       r.2)
  | .fill _ =>
      let r := C.update_fill st.data_handler st.portfolio e
      ({ st with portfolio := r.1, queue := st.queue ++ r.2,
                 fills := st.fills + 1 },
       r.2)

/-- The inner `while True` drain: `self.events.get(False)` pops the head of
the FIFO queue; `queue.Empty` breaks the loop.  `fuel` bounds the number of
iterations (the Python loop has no such bound; `none` models not yet having
reached the fixed point within `fuel` steps).  On success the result carries
the final state, the trace of popped (processed) events in order, and the
concatenation of all events put on the queue by handlers during the
drain. -/
def processEvents {σS σP σE δ : Type} (C : Components σS σP σE δ) :
    Nat → RunState σS σP σE δ →
    Option (RunState σS σP σE δ × List Event × List Event)
  | 0, _ => none
  | n + 1, st =>
      match st.queue with
      | [] => some (st, [], [])
      | e :: rest =>
          let r := handleEvent C { st with queue := rest } e
          match processEvents C n r.1 with
          | none => none
          | some (st', trace, produced) =>
              some (st', e :: trace, r.2 ++ produced)

/-- `_run_backtest`: while the bar source reports `continue_backtest`, call
`update_bars()` (whose emissions go on the queue) and drain the queue to
empty; otherwise break.  The `time.sleep(self.heartbeat)` between timesteps
carries no ordering semantics and is omitted.  The second component of the
result collects, in order, the state at each `update_bars` invocation. -/
def runLoop {σS σP σE δ : Type} (C : Components σS σP σE δ)
    (innerFuel : Nat) :
    Nat → RunState σS σP σE δ →
    Option (RunState σS σP σE δ × List (RunState σS σP σE δ))
  | 0, _ => none
  | n + 1, st =>
      if C.continue_backtest st.data_handler then
        let r := C.update_bars st.data_handler
        match processEvents C innerFuel
            { st with data_handler := r.1, queue := st.queue ++ r.2 } with
        | none => none
        | some (st2, _, _) =>
            match runLoop C innerFuel n st2 with
            | none => none
            | some (stf, calls) => some (stf, st :: calls)
      else some (st, [])

end Backtest

/-- The sample handler states used by witnesses and counterexamples below:
one tracked symbol `"A"`. -/
def sampleBar1 : Bar := ⟨1, 10, 12, 9, 11, 100, 11⟩

def sampleBar2 : Bar := ⟨2, 11, 13, 10, 12, 110, 12⟩

def sampleBar3 : Bar := ⟨3, 12, 14, 11, 13, 120, 13⟩

/-- A mid-run handler state: two bars observed, one unconsumed. -/
def sampleState : HistoricCSVDataHandler.State :=
  { symbol_list := ["A"],
    symbol_data := [("A", [sampleBar3])],
    latest_symbol_data := [("A", [sampleBar1, sampleBar2])],
    continue_backtest := true }

/-- A freshly-constructed handler state (empty observed history). -/
def freshState : HistoricCSVDataHandler.State :=
  { symbol_list := ["A"],
    symbol_data := [("A", [sampleBar1, sampleBar2, sampleBar3])],
    latest_symbol_data := [("A", [])],
    continue_backtest := true }

/-! ## Claim C1 -/

namespace HistoricCSVDataHandler

theorem updateBarsSym_exhausted (st : State) (s : String)
    (h : alookup st.symbol_data s = some []) :
    updateBarsSym st s = .ok { st with continue_backtest := false } := by
  unfold updateBarsSym
  rw [h]

theorem updateBarsSym_advance (st : State) (s : String) (b : Bar)
    (bs l : List Bar)
    (hd : alookup st.symbol_data s = some (b :: bs))
    (hl : alookup st.latest_symbol_data s = some l) :
    updateBarsSym st s =
      .ok { st with symbol_data := aset st.symbol_data s bs,
                    latest_symbol_data :=
                      aset st.latest_symbol_data s (l ++ [b]) } := by
  unfold updateBarsSym
  rw [hd, hl]

/-- Full characterization of the `for s in self.symbol_list` loop of
`update_bars` on a well-formed state (both dictionaries defined on every
looped symbol, no duplicate symbols): the loop succeeds; symbols outside the
loop are untouched; an exhausted symbol's history is untouched while a
non-exhausted one's history gains exactly its next bar; and the exhaustion
flag ends `True` iff it was `True` and no looped symbol was exhausted. -/
theorem updateBarsLoop_spec (syms : List String) (st : State)
    (hwf : ∀ s ∈ syms, (alookup st.symbol_data s).isSome ∧
      (alookup st.latest_symbol_data s).isSome)
    (hnd : syms.Nodup) :
    ∃ st', updateBarsLoop syms st = .ok st' ∧
      st'.symbol_list = st.symbol_list ∧
      (∀ t, t ∉ syms →
        alookup st'.latest_symbol_data t = alookup st.latest_symbol_data t ∧
        alookup st'.symbol_data t = alookup st.symbol_data t) ∧
      (∀ s ∈ syms,
        (alookup st.symbol_data s = some [] →
          alookup st'.latest_symbol_data s
            = alookup st.latest_symbol_data s) ∧
        (∀ b bs, alookup st.symbol_data s = some (b :: bs) →
          ∀ l, alookup st.latest_symbol_data s = some l →
            alookup st'.latest_symbol_data s = some (l ++ [b]))) ∧
      (st'.continue_backtest = true ↔
        (st.continue_backtest = true ∧
          ∀ s ∈ syms, alookup st.symbol_data s ≠ some [])) := by
  induction syms generalizing st with
  | nil =>
      exact ⟨st, rfl, rfl, fun t _ => ⟨rfl, rfl⟩, fun s hs => absurd hs
        (List.not_mem_nil s), by simp⟩
  | cons s rest ih =>
      obtain ⟨hnds, hndr⟩ := List.nodup_cons.mp hnd
      obtain ⟨hds, hls⟩ := hwf s (List.mem_cons_self s rest)
      obtain ⟨dl, hdl⟩ := Option.isSome_iff_exists.mp hds
      rcases dl with _ | ⟨b, bs⟩
      · -- symbol s is exhausted: flag cleared, dictionaries untouched
        have hstep := updateBarsSym_exhausted st s hdl
        set st1 : State := { st with continue_backtest := false } with hst1
        have hwf1 : ∀ s' ∈ rest, (alookup st1.symbol_data s').isSome ∧
            (alookup st1.latest_symbol_data s').isSome := by
          intro s' hs'
          exact hwf s' (List.mem_cons_of_mem s hs')
        obtain ⟨st', hloop, hsl, hout, hsyms, hflag⟩ := ih st1 hwf1 hndr
        refine ⟨st', ?_, hsl, ?_, ?_, ?_⟩
        · unfold updateBarsLoop
          rw [hstep]
          exact hloop
        · intro t ht
          have ht' : t ∉ rest := fun h => ht (List.mem_cons_of_mem s h)
          exact hout t ht'
        · intro s' hs'
          rcases List.mem_cons.mp hs' with h | h
          · subst h
            refine ⟨fun _ => ?_, fun b' bs' hb' => ?_⟩
            · exact (hout s' hnds).1
            · rw [hdl] at hb'
              exact absurd hb' (by simp)
          · exact hsyms s' h
        · rw [hflag]
          constructor
          · rintro ⟨h1, _⟩
            exact absurd h1 (by simp [hst1])
          · rintro ⟨_, hall⟩
            exact absurd hdl (hall s (List.mem_cons_self s rest))
      · -- symbol s advances by one bar
        obtain ⟨l0, hll0⟩ := Option.isSome_iff_exists.mp hls
        have hstep := updateBarsSym_advance st s b bs l0 hdl hll0
        set st1 : State :=
          { st with symbol_data := aset st.symbol_data s bs,
                    latest_symbol_data :=
                      aset st.latest_symbol_data s (l0 ++ [b]) } with hst1
        have hlook1 : ∀ t, t ≠ s →
            alookup st1.latest_symbol_data t = alookup st.latest_symbol_data t
            ∧ alookup st1.symbol_data t = alookup st.symbol_data t := by
          intro t ht
          constructor
          · exact alookup_aset_ne _ s t _ (fun h => ht h.symm)
          · exact alookup_aset_ne _ s t _ (fun h => ht h.symm)
        have hwf1 : ∀ s' ∈ rest, (alookup st1.symbol_data s').isSome ∧
            (alookup st1.latest_symbol_data s').isSome := by
          intro s' hs'
          have hne : s' ≠ s := fun h => hnds (h ▸ hs')
          rw [(hlook1 s' hne).1, (hlook1 s' hne).2]
          exact hwf s' (List.mem_cons_of_mem s hs')
        obtain ⟨st', hloop, hsl, hout, hsyms, hflag⟩ := ih st1 hwf1 hndr
        refine ⟨st', ?_, hsl, ?_, ?_, ?_⟩
        · unfold updateBarsLoop
          rw [hstep]
          exact hloop
        · intro t ht
          have hts : t ≠ s := fun h => ht (h ▸ List.mem_cons_self s rest)
          have ht' : t ∉ rest := fun h => ht (List.mem_cons_of_mem s h)
          obtain ⟨h1, h2⟩ := hout t ht'
          obtain ⟨h3, h4⟩ := hlook1 t hts
          exact ⟨h1.trans h3, h2.trans h4⟩
        · intro s' hs'
          rcases List.mem_cons.mp hs' with h | h
          · subst h
            refine ⟨fun habs => ?_, fun b' bs' hb' lv hlv => ?_⟩
            · rw [hdl] at habs
              exact absurd habs (by simp)
            · rw [hdl] at hb'
              rw [hll0] at hlv
              have hbb : b = b' := (List.cons.inj (Option.some.inj hb')).1
              have hlveq : l0 = lv := Option.some.inj hlv
              have hs1 : alookup st1.latest_symbol_data s'
                  = some (l0 ++ [b]) := alookup_aset_self _ s' _
              rw [(hout s' hnds).1, hs1, hlveq, hbb]
          · have hne : s' ≠ s := fun hh => hnds (hh ▸ h)
            obtain ⟨hl1, hd1⟩ := hlook1 s' hne
            obtain ⟨hex, hadv⟩ := hsyms s' h
            refine ⟨fun hz => ?_, fun b' bs' hb' l' hl' => ?_⟩
            · rw [← hd1] at hz
              exact (hex hz).trans hl1
            · rw [← hd1] at hb'
              rw [← hl1] at hl'
              exact hadv b' bs' hb' l' hl'
        · rw [hflag]
          have hc1 : st1.continue_backtest = st.continue_backtest := rfl
          constructor
          · rintro ⟨h1, hall⟩
            refine ⟨hc1 ▸ h1, ?_⟩
            intro s' hs'
            rcases List.mem_cons.mp hs' with h | h
            · subst h
              rw [hdl]
              simp
            · have hne : s' ≠ s := fun hh => hnds (hh ▸ h)
              rw [← (hlook1 s' hne).2]
              exact hall s' h
          · rintro ⟨h1, hall⟩
            refine ⟨hc1 ▸ h1, ?_⟩
            intro s' hs'
            have hne : s' ≠ s := fun hh => hnds (hh ▸ hs')
            rw [(hlook1 s' hne).2]
            exact hall s' (List.mem_cons_of_mem s hs')

end HistoricCSVDataHandler

/-- C1 (amended): on a well-formed handler state, `update_bars()`
*always* enqueues exactly one `MarketEvent` — including when a symbol's
series is exhausted, contrary to the original claim.  When no tracked
symbol's series is exhausted, every tracked symbol's observed history grows
by exactly one bar and the exhaustion flag is unchanged; when some symbol's
series is exhausted the flag is set to `False`; and the flag, once `False`,
remains `False` across every further call. -/
theorem update_bars_amended (st : HistoricCSVDataHandler.State)
    (hwf : ∀ s ∈ st.symbol_list, (alookup st.symbol_data s).isSome ∧
      (alookup st.latest_symbol_data s).isSome)
    (hnd : st.symbol_list.Nodup) :
    ∃ st', HistoricCSVDataHandler.update_bars st
        = .ok (st', [Event.market]) ∧
      ((∀ s ∈ st.symbol_list, alookup st.symbol_data s ≠ some []) →
        (∀ s ∈ st.symbol_list, ∀ l,
          alookup st.latest_symbol_data s = some l →
          ∃ b, alookup st'.latest_symbol_data s = some (l ++ [b]) ∧
            (l ++ [b]).length = l.length + 1) ∧
        st'.continue_backtest = st.continue_backtest) ∧
      ((∃ s ∈ st.symbol_list, alookup st.symbol_data s = some []) →
        st'.continue_backtest = false) ∧
      (st.continue_backtest = false → st'.continue_backtest = false) := by
  obtain ⟨st', hloop, _, _, hsyms, hflag⟩ :=
    HistoricCSVDataHandler.updateBarsLoop_spec st.symbol_list st hwf hnd
  refine ⟨st', ?_, ?_, ?_, ?_⟩
  · unfold HistoricCSVDataHandler.update_bars
    rw [hloop]
  · intro hnoex
    constructor
    · intro s hs l hl
      obtain ⟨hds, _⟩ := hwf s hs
      obtain ⟨dl, hdl⟩ := Option.isSome_iff_exists.mp hds
      rcases dl with _ | ⟨b, bs⟩
      · exact absurd hdl (hnoex s hs)
      · exact ⟨b, (hsyms s hs).2 b bs hdl l hl, by simp⟩
    · cases hc : st.continue_backtest with
      | true =>
          exact hflag.mpr ⟨hc, hnoex⟩
      | false =>
          cases hc' : st'.continue_backtest with
          | true =>
              exact absurd ((hflag.mp hc').1) (by simp [hc])
          | false => rfl
  · rintro ⟨s, hs, hex⟩
    cases hc' : st'.continue_backtest with
    | true => exact absurd hex ((hflag.mp hc').2 s hs)
    | false => rfl
  · intro hc
    cases hc' : st'.continue_backtest with
    | true => exact absurd (hflag.mp hc').1 (by simp [hc])
    | false => rfl

/-- The concrete exhausted state for the C1 counterexample: the single
tracked symbol `"A"` has no remaining rows. -/
def c1ExhaustedState : HistoricCSVDataHandler.State :=
  { symbol_list := ["A"],
    symbol_data := [("A", [])],
    latest_symbol_data := [("A", [sampleBar1])],
    continue_backtest := true }

/-- C1 counterexample: with symbol `"A"`'s underlying series exhausted,
`update_bars()` still enqueues a `MarketEvent` — `self.events.put(
MarketEvent())` is outside the `for` loop and unconditional — refuting "if
any symbol's series is exhausted, no MarketEvent is enqueued". -/
theorem update_bars_exhausted_still_emits :
    alookup c1ExhaustedState.symbol_data "A" = some [] ∧
    HistoricCSVDataHandler.update_bars c1ExhaustedState =
      .ok ({ c1ExhaustedState with continue_backtest := false },
        [Event.market]) := by
  constructor
  · decide
  · rfl

/-- Witness for the amended C1 at `freshState` (no symbol exhausted). -/
theorem update_bars_amended_witness :
    (∀ s ∈ freshState.symbol_list,
      (alookup freshState.symbol_data s).isSome ∧
      (alookup freshState.latest_symbol_data s).isSome)
    ∧ freshState.symbol_list.Nodup
    ∧ ∃ st', HistoricCSVDataHandler.update_bars freshState
        = .ok (st', [Event.market]) := by
  have hwf : ∀ s ∈ freshState.symbol_list,
      (alookup freshState.symbol_data s).isSome ∧
      (alookup freshState.latest_symbol_data s).isSome := by
    decide
  have hnd : freshState.symbol_list.Nodup := by
    simp [freshState]
  obtain ⟨st', h1, _⟩ := update_bars_amended freshState hwf hnd
  exact ⟨hwf, hnd, st', h1⟩

/-! ## Claim C3 -/

/-- C3: for every tracked symbol, every field and every `N ≥ 1`, in any
handler state, `get_latest_bars_values(symbol, field, N)` returns (never
raises) exactly `min N available` values of that field, and they form a
suffix of the full chronological value sequence of the observed history
(chronological order, no gaps). -/
theorem get_latest_bars_values_min_available
    (st : HistoricCSVDataHandler.State) (s : String) (f : BarField)
    (n : Nat) (l : List Bar)
    (hl : alookup st.latest_symbol_data s = some l) (hn : 1 ≤ n) :
    HistoricCSVDataHandler.get_latest_bars_values st s f n =
      .ok ((l.map (getField f)).drop (l.length - n)) ∧
    ((l.map (getField f)).drop (l.length - n)).length = min n l.length ∧
    List.IsSuffix ((l.map (getField f)).drop (l.length - n))
      (l.map (getField f)) := by
  have hlen : ((l.map (getField f)).drop (l.length - n)).length
      = min n l.length := by
    simp only [List.length_drop, List.length_map]
    omega
  refine ⟨?_, hlen, List.drop_suffix _ _⟩
  unfold HistoricCSVDataHandler.get_latest_bars_values
    HistoricCSVDataHandler.get_latest_bars
  rw [hl]
  rcases l with _ | ⟨b, t⟩
  · simp
  · have hne : ¬ (b :: t).isEmpty := by simp
    simp only [hne, if_false, pyLastSlice, Nat.pos_iff_ne_zero]
    have hn0 : n ≠ 0 := by omega
    simp [hn0, List.map_drop]

/-- Witness for C3 at `sampleState` with `N = 5 >` the 2 available bars. -/
theorem get_latest_bars_values_min_available_witness :
    alookup sampleState.latest_symbol_data "A" = some [sampleBar1, sampleBar2]
    ∧ 1 ≤ 5
    ∧ HistoricCSVDataHandler.get_latest_bars_values sampleState "A"
        BarField.close 5 = .ok [11, 12]
    ∧ (2 : Nat) = min 5 2 := by
  have h := get_latest_bars_values_min_available sampleState "A"
    BarField.close 5 [sampleBar1, sampleBar2] (by decide) (by decide)
  refine ⟨by decide, by decide, ?_, by decide⟩
  have := h.1
  simpa [sampleBar1, sampleBar2, getField] using this

/-! ## Claim C9 -/

/-- C9: every bar-source lookup operation applied to a symbol outside the
tracked symbol list (the dictionaries are keyed only by tracked symbols)
fails with a `KeyError` — in Python a subclass of `LookupError` — for all
five operations.  The lookups are pure readers of the handler state: no
component of the state, in particular not the `continue_backtest` exhaustion
flag, is written by them, and the error is returned to the caller rather
than terminating the run. -/
theorem untracked_symbol_lookup_error
    (st : HistoricCSVDataHandler.State) (s : String) (f : BarField) (n : Nat)
    (hkeys : ∀ t, (alookup st.latest_symbol_data t).isSome →
      t ∈ st.symbol_list)
    (hs : s ∉ st.symbol_list) :
    HistoricCSVDataHandler.get_latest_bar st s = .error .keyError ∧
    HistoricCSVDataHandler.get_latest_bars st s n = .error .keyError ∧
    HistoricCSVDataHandler.get_latest_bar_value st s f = .error .keyError ∧
    HistoricCSVDataHandler.get_latest_bars_values st s f n
      = .error .keyError ∧
    HistoricCSVDataHandler.get_latest_bar_datetime st s
      = .error .keyError := by
  have hnone : alookup st.latest_symbol_data s = none := by
    cases h : alookup st.latest_symbol_data s with
    | none => rfl
    | some l => exact absurd (hkeys s (by simp [h])) hs
  refine ⟨?_, ?_, ?_, ?_, ?_⟩ <;>
    simp [HistoricCSVDataHandler.get_latest_bar,
      HistoricCSVDataHandler.get_latest_bars,
      HistoricCSVDataHandler.get_latest_bar_value,
      HistoricCSVDataHandler.get_latest_bars_values,
      HistoricCSVDataHandler.get_latest_bar_datetime, hnone]

/-- Witness for C9: the symbol `"B"` is not tracked by `sampleState`. -/
theorem untracked_symbol_lookup_error_witness :
    (∀ t, (alookup sampleState.latest_symbol_data t).isSome →
      t ∈ sampleState.symbol_list)
    ∧ "B" ∉ sampleState.symbol_list
    ∧ HistoricCSVDataHandler.get_latest_bar sampleState "B"
        = .error .keyError
    ∧ HistoricCSVDataHandler.get_latest_bars_values sampleState "B"
        BarField.close 1 = .error .keyError := by
  have hkeys : ∀ t, (alookup sampleState.latest_symbol_data t).isSome →
      t ∈ sampleState.symbol_list := by
    intro t ht
    simp only [sampleState, alookup] at ht
    by_cases h : ("A" : String) = t
    · simp [sampleState, ← h]
    · simp [h] at ht
  have h := untracked_symbol_lookup_error sampleState "B" BarField.close 1
    hkeys (by decide)
  exact ⟨hkeys, by decide, h.1, h.2.2.2.1⟩

/-! ## Claim C10 -/

/-- C10: for a tracked symbol whose observed history is still empty,
`get_latest_bar_value` returns `None` (it does not raise), while
`get_latest_bar` on the very same state raises an `IndexError` from
`bars_list[-1]`. -/
theorem empty_history_value_none_bar_raises
    (st : HistoricCSVDataHandler.State) (s : String) (f : BarField)
    (hl : alookup st.latest_symbol_data s = some []) :
    HistoricCSVDataHandler.get_latest_bar_value st s f = .ok none ∧
    HistoricCSVDataHandler.get_latest_bar st s = .error .indexError := by
  constructor
  · simp [HistoricCSVDataHandler.get_latest_bar_value, hl]
  · simp [HistoricCSVDataHandler.get_latest_bar, hl]

/-- Witness for C10 at `freshState`. -/
theorem empty_history_value_none_bar_raises_witness :
    alookup freshState.latest_symbol_data "A" = some []
    ∧ HistoricCSVDataHandler.get_latest_bar_value freshState "A"
        BarField.adj_close = .ok none
    ∧ HistoricCSVDataHandler.get_latest_bar freshState "A"
        = .error .indexError := by
  have h := empty_history_value_none_bar_raises freshState "A"
    BarField.adj_close (by decide)
  exact ⟨by decide, h.1, h.2⟩

/-! ## Claims C4 and C5 -/

namespace MovingAverageCrossStrategy

/-- Every event the per-symbol loop body emits is a `SignalEvent` for that
very symbol. -/
theorem calcSignalsSym_events (bars_dh : HistoricCSVDataHandler.State)
    (st : State) (s : String) (st' : State) (evs : List Event)
    (h : calcSignalsSym bars_dh st s = .ok (st', evs)) :
    ∀ ev ∈ evs, ∃ sg : SignalEvent, ev = Event.signal sg ∧ sg.symbol = s := by
  unfold calcSignalsSym at h
  split at h
  · exact absurd h (by simp)
  · split at h
    · exact absurd h (by simp)
    · split at h
      · split at h
        · exact absurd h (by simp)
        · dsimp only at h
          split at h
          · obtain ⟨_, hevs⟩ := Prod.mk.inj (Except.ok.inj h)
            subst hevs
            intro ev hev
            rcases List.mem_singleton.mp hev with rfl
            exact ⟨_, rfl, rfl⟩
          · split at h
            · obtain ⟨_, hevs⟩ := Prod.mk.inj (Except.ok.inj h)
              subst hevs
              intro ev hev
              rcases List.mem_singleton.mp hev with rfl
              exact ⟨_, rfl, rfl⟩
            · obtain ⟨_, hevs⟩ := Prod.mk.inj (Except.ok.inj h)
              subst hevs
              intro ev hev
              exact absurd hev (List.not_mem_nil ev)
      · obtain ⟨_, hevs⟩ := Prod.mk.inj (Except.ok.inj h)
        subst hevs
        intro ev hev
        exact absurd hev (List.not_mem_nil ev)

/-- A tracked symbol with an empty observed history makes the per-symbol
loop body raise an `IndexError` (from `get_latest_bar_datetime`, evaluated
before the `bars.size > 0` guard) rather than emit anything. -/
theorem calcSignalsSym_empty_history (bars_dh : HistoricCSVDataHandler.State)
    (st : State) (s : String)
    (hl : alookup bars_dh.latest_symbol_data s = some []) :
    calcSignalsSym bars_dh st s = .error .indexError := by
  unfold calcSignalsSym
  have hv : HistoricCSVDataHandler.get_latest_bars_values bars_dh s
      BarField.adj_close st.long_window = .ok [] := by
    simp [HistoricCSVDataHandler.get_latest_bars_values,
      HistoricCSVDataHandler.get_latest_bars, hl]
  have hd : HistoricCSVDataHandler.get_latest_bar_datetime bars_dh s
      = .error .indexError := by
    simp [HistoricCSVDataHandler.get_latest_bar_datetime, hl]
  rw [hv, hd]

/-- Every signal emitted across the whole symbol loop belongs to a looped
symbol whose observed history is nonempty. -/
theorem calcSignalsLoop_events (bars_dh : HistoricCSVDataHandler.State)
    (syms : List String) (st : State) :
    ∀ ev ∈ (calcSignalsLoop bars_dh syms st).2.1,
      ∃ s ∈ syms, ∃ sg : SignalEvent, ev = Event.signal sg ∧ sg.symbol = s ∧
        alookup bars_dh.latest_symbol_data s ≠ some [] := by
  induction syms generalizing st with
  | nil =>
      intro ev hev
      exact absurd hev (List.not_mem_nil ev)
  | cons s rest ih =>
      intro ev hev
      unfold calcSignalsLoop at hev
      rcases hstep : calcSignalsSym bars_dh st s with e | p
      · rw [hstep] at hev
        exact absurd hev (List.not_mem_nil ev)
      · rw [hstep] at hev
        obtain ⟨st1, evs⟩ := p
        rcases List.mem_append.mp hev with h | h
        · obtain ⟨sg, hsg, hsym⟩ :=
            calcSignalsSym_events bars_dh st s st1 evs hstep ev h
          refine ⟨s, List.mem_cons_self s rest, sg, hsg, hsym, ?_⟩
          intro habs
          rw [calcSignalsSym_empty_history bars_dh st s habs] at hstep
          exact absurd hstep (by simp)
        · obtain ⟨s', hs', sg, hsg, hsym, hne⟩ := ih st1 ev h
          exact ⟨s', List.mem_cons_of_mem s hs', sg, hsg, hsym, hne⟩

end MovingAverageCrossStrategy

/-- C4 (amended): on a Market event the crossover strategy emits no
`SignalEvent` for a symbol while *zero* bars of observed history are
available for it.  (The source guard is `bars.size > 0`, not
`>= long_window`: with at least one bar, signals can be emitted below
`long_window` — see the counterexample.) -/
theorem mac_no_signal_for_empty_history
    (bars_dh : HistoricCSVDataHandler.State)
    (st : MovingAverageCrossStrategy.State) (s : String)
    (hl : alookup bars_dh.latest_symbol_data s = some []) :
    ∀ ev ∈ (MovingAverageCrossStrategy.calculate_signals bars_dh st
        Event.market).2.1,
      ∀ sg : SignalEvent, ev = Event.signal sg → sg.symbol ≠ s := by
  intro ev hev sg hsg
  obtain ⟨s', _, sg', hsg', hsym', hne⟩ :=
    MovingAverageCrossStrategy.calcSignalsLoop_events bars_dh
      st.symbol_list st ev hev
  intro habs
  apply hne
  rw [hsg] at hsg'
  have hsgeq : sg = sg' := Event.signal.inj hsg'
  have hs' : s' = s := by rw [← hsym', ← hsgeq, habs]
  rw [hs']
  exact hl

/-- The market state for the C4 counterexample: two observed bars for `"A"`
with adjusted closes `2` then `1`. -/
def c4Bar1 : Bar := ⟨1, 2, 2, 2, 2, 100, 2⟩

def c4Bar2 : Bar := ⟨2, 1, 1, 1, 1, 100, 1⟩

def c4Dh : HistoricCSVDataHandler.State :=
  { symbol_list := ["A"],
    symbol_data := [("A", [])],
    latest_symbol_data := [("A", [c4Bar1, c4Bar2])],
    continue_backtest := true }

/-- The crossover strategy for the C4 counterexample:
`short_window = 1 < long_window = 4`, `bought` in its initial `'OUT'`
state. -/
def c4Mac : MovingAverageCrossStrategy.State :=
  { symbol_list := ["A"],
    short_window := 1,
    long_window := 4,
    bought := [("A", .out)] }

/-- C4 counterexample: with only `2 < long_window = 4` bars available for
`"A"`, `calculate_signals` on a Market event emits a `SignalEvent` for
`"A"` (the short mean `1` is below the long mean `3/2` and the truthy
`'OUT'` entry takes the `EXIT` branch), refuting "no SignalEvent while
fewer than `long_window` bars are available". -/
theorem mac_signal_below_long_window :
    (alookup c4Dh.latest_symbol_data "A").map List.length = some 2 ∧
    2 < c4Mac.long_window ∧
    MovingAverageCrossStrategy.calculate_signals c4Dh c4Mac Event.market
      = ({ c4Mac with bought := [("A", .pyfalse)] },
         [Event.signal ⟨1, "A", 0, .EXIT, 1⟩], none) := by
  have hbars : HistoricCSVDataHandler.get_latest_bars_values c4Dh "A"
      BarField.adj_close 4 = .ok [2, 1] := by
    simp [HistoricCSVDataHandler.get_latest_bars_values,
      HistoricCSVDataHandler.get_latest_bars, c4Dh, c4Bar1, c4Bar2,
      alookup, pyLastSlice, getField]
  have hdt : HistoricCSVDataHandler.get_latest_bar_datetime c4Dh "A"
      = .ok 2 := by
    simp [HistoricCSVDataHandler.get_latest_bar_datetime, c4Dh, c4Bar1,
      c4Bar2, alookup]
  have hshort : qmean (pyLastSlice [(2 : ℚ), 1] 1) = 1 := by
    norm_num [qmean, pyLastSlice]
  have hlong : qmean (pyLastSlice [(2 : ℚ), 1] 4) = 3 / 2 := by
    norm_num [qmean, pyLastSlice]
  have hlt : qmean (pyLastSlice [(2 : ℚ), 1] 1) <
      qmean (pyLastSlice [(2 : ℚ), 1] 4) := by
    rw [hshort, hlong]
    norm_num
  have hsym : MovingAverageCrossStrategy.calcSignalsSym c4Dh c4Mac "A"
      = .ok ({ c4Mac with bought := [("A", .pyfalse)] },
             [Event.signal ⟨1, "A", 0, .EXIT, 1⟩]) := by
    unfold MovingAverageCrossStrategy.calcSignalsSym
    rw [show c4Mac.long_window = 4 from rfl,
      show c4Mac.short_window = 1 from rfl, hbars, hdt]
    simp [c4Mac, alookup, aset, MovingAverageCrossStrategy.truthy, hlt]
  refine ⟨by decide, by decide, ?_⟩
  unfold MovingAverageCrossStrategy.calculate_signals
  rw [show c4Mac.symbol_list = ["A"] from rfl]
  unfold MovingAverageCrossStrategy.calcSignalsLoop
  rw [hsym]
  simp [MovingAverageCrossStrategy.calcSignalsLoop]

/-- Witness for the amended C4 at `freshState` (no bars observed yet). -/
theorem mac_no_signal_for_empty_history_witness :
    alookup freshState.latest_symbol_data "A" = some []
    ∧ ∀ ev ∈ (MovingAverageCrossStrategy.calculate_signals freshState c4Mac
        Event.market).2.1,
      ∀ sg : SignalEvent, ev = Event.signal sg → sg.symbol ≠ "A" :=
  ⟨by decide, mac_no_signal_for_empty_history freshState c4Mac "A"
    (by decide)⟩

/-- The market state for the C5 failing input: two observed bars for `"A"`
with adjusted closes `1` then `2`, so the 1-bar short mean `2` is above the
2-bar long mean `3/2` — an upward cross — while the strategy is flat
(`bought["A"] = 'OUT'`). -/
def c5Bar1 : Bar := ⟨1, 1, 1, 1, 1, 100, 1⟩

def c5Bar2 : Bar := ⟨2, 2, 2, 2, 2, 100, 2⟩

def c5Dh : HistoricCSVDataHandler.State :=
  { symbol_list := ["A"],
    symbol_data := [("A", [])],
    latest_symbol_data := [("A", [c5Bar1, c5Bar2])],
    continue_backtest := true }

def c5Mac : MovingAverageCrossStrategy.State :=
  { symbol_list := ["A"],
    short_window := 1,
    long_window := 2,
    bought := [("A", .out)] }

/-! ## Claim C2 -/

namespace Backtest

/-- The state produced by a dispatch step carries the old queue extended, at
the tail, by exactly the events the handlers put on the queue. -/
theorem handleEvent_queue {σS σP σE δ : Type} (C : Components σS σP σE δ)
    (st : RunState σS σP σE δ) (e : Event) :
    (handleEvent C st e).1.queue = st.queue ++ (handleEvent C st e).2 := by
  cases e <;> rfl

/-- When the inner event loop returns (it saw `queue.Empty`), the queue is
empty, and every event of the starting queue as well as every event
enqueued by a handler during the drain appears in the processed trace. -/
theorem processEvents_spec {σS σP σE δ : Type} (C : Components σS σP σE δ)
    (fuel : Nat) (st st' : RunState σS σP σE δ)
    (trace produced : List Event)
    (h : processEvents C fuel st = some (st', trace, produced)) :
    st'.queue = [] ∧
    (∀ e : Event, e ∈ st.queue ∨ e ∈ produced → e ∈ trace) := by
  induction fuel generalizing st st' trace produced with
  | zero => exact absurd h (by simp [processEvents])
  | succ n ih =>
      unfold processEvents at h
      rcases hq : st.queue with _ | ⟨e, rest⟩
      · rw [hq] at h
        dsimp only at h
        obtain ⟨h1, h2⟩ := Prod.mk.inj (Option.some.inj h)
        obtain ⟨htr, hpr⟩ := Prod.mk.inj h2
        subst h1
        subst htr
        subst hpr
        refine ⟨hq, ?_⟩
        intro x hx
        rcases hx with hx | hx <;> exact absurd hx (List.not_mem_nil x)
      · rw [hq] at h
        dsimp only at h
        rcases hrec : processEvents C n
            (handleEvent C { st with queue := rest } e).1
            with _ | ⟨st2, tr, pr⟩
        · rw [hrec] at h
          exact absurd h (by simp)
        · rw [hrec] at h
          dsimp only at h
          obtain ⟨h1, h2⟩ := Prod.mk.inj (Option.some.inj h)
          obtain ⟨htr, hpr⟩ := Prod.mk.inj h2
          subst h1
          subst htr
          subst hpr
          obtain ⟨hq2, hall⟩ := ih _ st2 tr pr hrec
          refine ⟨hq2, ?_⟩
          intro x hx
          have hqlaw := handleEvent_queue C { st with queue := rest } e
          rcases hx with hx | hx
          · rcases List.mem_cons.mp hx with rfl | hx
            · exact List.mem_cons_self x tr
            · refine List.mem_cons_of_mem e (hall x (Or.inl ?_))
              rw [hqlaw]
              exact List.mem_append_left _ hx
          · rcases List.mem_append.mp hx with hx | hx
            · refine List.mem_cons_of_mem e (hall x (Or.inl ?_))
              rw [hqlaw]
              exact List.mem_append_right _ hx
            · exact List.mem_cons_of_mem e (hall x (Or.inr hx))

/-- Apart from the very first, every `update_bars()` call of the run loop is
made on a state whose event queue has been drained to empty. -/
theorem runLoop_drained_calls {σS σP σE δ : Type}
    (C : Components σS σP σE δ) (innerFuel n : Nat)
    (st stf : RunState σS σP σE δ) (calls : List (RunState σS σP σE δ))
    (h : runLoop C innerFuel n st = some (stf, calls)) :
    ∀ s ∈ calls, s = st ∨ s.queue = [] := by
  induction n generalizing st calls with
  | zero => exact absurd h (by simp [runLoop])
  | succ n ih =>
      unfold runLoop at h
      by_cases hc : C.continue_backtest st.data_handler
      · rw [if_pos hc] at h
        dsimp only at h
        rcases hdr : processEvents C innerFuel
            { st with data_handler := (C.update_bars st.data_handler).1,
                      queue := st.queue ++ (C.update_bars st.data_handler).2 }
            with _ | ⟨st2, tr, pr⟩
        · rw [hdr] at h
          exact absurd h (by simp)
        · rw [hdr] at h
          dsimp only at h
          rcases hrl : runLoop C innerFuel n st2 with _ | ⟨stf2, calls2⟩
          · rw [hrl] at h
            exact absurd h (by simp)
          · rw [hrl] at h
            dsimp only at h
            obtain ⟨h1, h2⟩ := Prod.mk.inj (Option.some.inj h)
            subst h1
            subst h2
            intro s hs
            rcases List.mem_cons.mp hs with rfl | hmem
            · exact Or.inl rfl
            · right
              have hdrained :=
                (processEvents_spec C innerFuel _ st2 tr pr hdr).1
              rcases ih st2 calls2 hrl s hmem with rfl | hqe
              · exact hdrained
              · exact hqe
      · rw [if_neg hc] at h
        obtain ⟨_, h2⟩ := Prod.mk.inj (Option.some.inj h)
        subst h2
        intro s hs
        exact absurd hs (List.not_mem_nil s)

end Backtest

/-- C2: the orchestrator's event-loop contract.  (1) The inner drain returns
only with an empty queue, and every event of the initial queue together with
every event enqueued by a handler during the drain is popped and processed
within the same drain (a fixed-point loop, not a single pass).  (2)–(5)
each popped event is dispatched to exactly one role by its tag: a Market
event goes to the strategy (`calculate_signals`) and then the portfolio
(`update_timeindex`), leaving execution and every counter untouched; a
Signal event goes only to the portfolio (`update_signal`) and bumps the
signal counter; an Order event goes only to execution (`execute_order`) and
bumps the order counter; a Fill event goes only to the portfolio
(`update_fill`) and bumps the fill counter; handler-emitted events are
appended to the queue.  (6) In the run loop, every `update_bars()` call
after the first happens only once the previous drain emptied the queue. -/
theorem backtest_event_loop_contract (σS σP σE δ : Type)
    (C : Backtest.Components σS σP σE δ) :
    (∀ (fuel : Nat) (st st' : Backtest.RunState σS σP σE δ)
       (trace produced : List Event),
      Backtest.processEvents C fuel st = some (st', trace, produced) →
      st'.queue = [] ∧
      (∀ e : Event, e ∈ st.queue ∨ e ∈ produced → e ∈ trace)) ∧
    (∀ st : Backtest.RunState σS σP σE δ,
      (Backtest.handleEvent C st Event.market).1.strategy
        = (C.calculate_signals st.data_handler st.strategy Event.market).1 ∧
      (Backtest.handleEvent C st Event.market).1.portfolio
        = (C.update_timeindex st.data_handler st.portfolio Event.market).1 ∧
      (Backtest.handleEvent C st Event.market).2
        = (C.calculate_signals st.data_handler st.strategy Event.market).2
          ++ (C.update_timeindex st.data_handler st.portfolio Event.market).2
      ∧
      (Backtest.handleEvent C st Event.market).1.execution = st.execution ∧
      (Backtest.handleEvent C st Event.market).1.data_handler
        = st.data_handler ∧
      (Backtest.handleEvent C st Event.market).1.queue
        = st.queue ++ (Backtest.handleEvent C st Event.market).2 ∧
      (Backtest.handleEvent C st Event.market).1.signals = st.signals ∧
      (Backtest.handleEvent C st Event.market).1.orders = st.orders ∧
      (Backtest.handleEvent C st Event.market).1.fills = st.fills) ∧
    (∀ (st : Backtest.RunState σS σP σE δ) (sg : SignalEvent),
      (Backtest.handleEvent C st (Event.signal sg)).1.portfolio
        = (C.update_signal st.data_handler st.portfolio (Event.signal sg)).1
      ∧
      (Backtest.handleEvent C st (Event.signal sg)).2
        = (C.update_signal st.data_handler st.portfolio (Event.signal sg)).2
      ∧
      (Backtest.handleEvent C st (Event.signal sg)).1.strategy = st.strategy
      ∧
      (Backtest.handleEvent C st (Event.signal sg)).1.execution
        = st.execution ∧
      (Backtest.handleEvent C st (Event.signal sg)).1.data_handler
        = st.data_handler ∧
      (Backtest.handleEvent C st (Event.signal sg)).1.queue
        = st.queue ++ (Backtest.handleEvent C st (Event.signal sg)).2 ∧
      (Backtest.handleEvent C st (Event.signal sg)).1.signals
        = st.signals + 1 ∧
      (Backtest.handleEvent C st (Event.signal sg)).1.orders = st.orders ∧
      (Backtest.handleEvent C st (Event.signal sg)).1.fills = st.fills) ∧
    (∀ (st : Backtest.RunState σS σP σE δ) (o : OrderEvent),
      (Backtest.handleEvent C st (Event.order o)).1.execution
        = (C.execute_order st.data_handler st.execution (Event.order o)).1 ∧
      (Backtest.handleEvent C st (Event.order o)).2
        = (C.execute_order st.data_handler st.execution (Event.order o)).2 ∧
      (Backtest.handleEvent C st (Event.order o)).1.strategy = st.strategy ∧
      (Backtest.handleEvent C st (Event.order o)).1.portfolio = st.portfolio
      ∧
      (Backtest.handleEvent C st (Event.order o)).1.data_handler
        = st.data_handler ∧
      (Backtest.handleEvent C st (Event.order o)).1.queue
        = st.queue ++ (Backtest.handleEvent C st (Event.order o)).2 ∧
      (Backtest.handleEvent C st (Event.order o)).1.orders = st.orders + 1 ∧
      (Backtest.handleEvent C st (Event.order o)).1.signals = st.signals ∧
      (Backtest.handleEvent C st (Event.order o)).1.fills = st.fills) ∧
    (∀ (st : Backtest.RunState σS σP σE δ) (f : FillEvent),
      (Backtest.handleEvent C st (Event.fill f)).1.portfolio
        = (C.update_fill st.data_handler st.portfolio (Event.fill f)).1 ∧
      (Backtest.handleEvent C st (Event.fill f)).2
        = (C.update_fill st.data_handler st.portfolio (Event.fill f)).2 ∧
      (Backtest.handleEvent C st (Event.fill f)).1.strategy = st.strategy ∧
      (Backtest.handleEvent C st (Event.fill f)).1.execution = st.execution
      ∧
      (Backtest.handleEvent C st (Event.fill f)).1.data_handler
        = st.data_handler ∧
      (Backtest.handleEvent C st (Event.fill f)).1.queue
        = st.queue ++ (Backtest.handleEvent C st (Event.fill f)).2 ∧
      (Backtest.handleEvent C st (Event.fill f)).1.fills = st.fills + 1 ∧
      (Backtest.handleEvent C st (Event.fill f)).1.signals = st.signals ∧
      (Backtest.handleEvent C st (Event.fill f)).1.orders = st.orders) ∧
    (∀ (innerFuel n : Nat) (st stf : Backtest.RunState σS σP σE δ)
       (calls : List (Backtest.RunState σS σP σE δ)),
      Backtest.runLoop C innerFuel n st = some (stf, calls) →
      ∀ s ∈ calls, s = st ∨ s.queue = []) := by
  refine ⟨Backtest.processEvents_spec C, ?_, ?_, ?_, ?_,
    Backtest.runLoop_drained_calls C⟩
  · intro st
    exact ⟨rfl, rfl, rfl, rfl, rfl, rfl, rfl, rfl, rfl⟩
  · intro st sg
    exact ⟨rfl, rfl, rfl, rfl, rfl, rfl, rfl, rfl, rfl⟩
  · intro st o
    exact ⟨rfl, rfl, rfl, rfl, rfl, rfl, rfl, rfl, rfl⟩
  · intro st f
    exact ⟨rfl, rfl, rfl, rfl, rfl, rfl, rfl, rfl, rfl⟩

/-- Components for the C2 witness: a strategy that answers every Market
event with one signal, a portfolio that turns signals into one order, an
execution handler that fills every order, and a one-step bar source. -/
def wSig : SignalEvent := ⟨1, "A", 0, .LONG, 1⟩

def wOrd : OrderEvent := ⟨"A", "MKT", 100, "BUY"⟩

def wFill : FillEvent := ⟨0, "A", "ARCA", 100, "BUY", 10⟩

def wComps : Backtest.Components Unit Unit Unit Nat :=
  { calculate_signals := fun _ _ _ => ((), [Event.signal wSig]),
    update_timeindex := fun _ _ _ => ((), []),
    update_signal := fun _ _ _ => ((), [Event.order wOrd]),
    update_fill := fun _ _ _ => ((), []),
    execute_order := fun _ _ _ => ((), [Event.fill wFill]),
    update_bars := fun d => (d + 1, [Event.market]),
    continue_backtest := fun d => decide (d < 1) }

def wSt0 : Backtest.RunState Unit Unit Unit Nat :=
  { queue := [], strategy := (), portfolio := (), execution := (),
    data_handler := 0, signals := 0, orders := 0, fills := 0 }

def wSt : Backtest.RunState Unit Unit Unit Nat :=
  { queue := [Event.market], strategy := (), portfolio := (),
    execution := (), data_handler := 1, signals := 0, orders := 0,
    fills := 0 }

def wStF : Backtest.RunState Unit Unit Unit Nat :=
  { queue := [], strategy := (), portfolio := (), execution := (),
    data_handler := 1, signals := 1, orders := 1, fills := 1 }

/-- Witness for C2: the concrete one-timestep run drains to the empty queue
after processing the market, signal, order and fill events in FIFO order,
and the second `update_bars` call of the run loop happens on the drained
state. -/
theorem backtest_event_loop_contract_witness :
    Backtest.processEvents wComps 5 wSt
      = some (wStF,
          [Event.market, Event.signal wSig, Event.order wOrd,
            Event.fill wFill],
          [Event.signal wSig, Event.order wOrd, Event.fill wFill]) ∧
    wStF.queue = [] ∧
    Backtest.runLoop wComps 5 2 wSt0 = some (wStF, [wSt0]) ∧
    (∀ s ∈ [wSt0], s = wSt0 ∨ Backtest.RunState.queue s = []) := by
  have hrun : Backtest.processEvents wComps 5 wSt
      = some (wStF,
          [Event.market, Event.signal wSig, Event.order wOrd,
            Event.fill wFill],
          [Event.signal wSig, Event.order wOrd, Event.fill wFill]) := rfl
  have hloop : Backtest.runLoop wComps 5 2 wSt0 = some (wStF, [wSt0]) := rfl
  refine ⟨hrun, ?_, hloop, ?_⟩
  · exact ((backtest_event_loop_contract Unit Unit Unit Nat wComps).1
      5 wSt wStF _ _ hrun).1
  · exact (backtest_event_loop_contract Unit Unit Unit Nat
      wComps).2.2.2.2.2 5 2 wSt0 wStF [wSt0] hloop

/-! ## Claim C8 -/

namespace IBExecutionHandler

/-- A reply-handler step returns either no fill id or exactly one, and in
the latter case the new state's entry for that id has its `filled` flag
set. -/
theorem replyHandler_ids (st : State) (m : IBMessage) (st' : State)
    (evs : List Event) (ids : List Nat)
    (h : replyHandler st m = .ok (st', evs, ids)) :
    ids = [] ∨ ∃ oid e', ids = [oid] ∧
      alookup st'.fill_dict oid = some e' ∧ e'.filled = true := by
  unfold replyHandler at h
  split at h
  · split at h
    · obtain ⟨_, h2⟩ := Prod.mk.inj (Except.ok.inj h)
      exact Or.inl (Prod.mk.inj h2).2.symm
    · obtain ⟨_, h2⟩ := Prod.mk.inj (Except.ok.inj h)
      exact Or.inl (Prod.mk.inj h2).2.symm
  · rename_i oid status fq px
    split at h
    · unfold create_fill at h
      rcases hfd : alookup st.fill_dict oid with _ | fd
      · rw [hfd] at h
        exact absurd h (by simp)
      · rw [hfd] at h
        dsimp only at h
        obtain ⟨h1, h2⟩ := Prod.mk.inj (Except.ok.inj h)
        obtain ⟨_, hids⟩ := Prod.mk.inj h2
        refine Or.inr ⟨oid, { fd with filled := true }, hids.symm, ?_, rfl⟩
        rw [← h1]
        exact alookup_aset_self _ oid _
    · obtain ⟨_, h2⟩ := Prod.mk.inj (Except.ok.inj h)
      exact Or.inl (Prod.mk.inj h2).2.symm
  · obtain ⟨_, h2⟩ := Prod.mk.inj (Except.ok.inj h)
    exact Or.inl (Prod.mk.inj h2).2.symm

/-- Once an order id's entry has `filled = True`, any reply-handler step
keeps it `True` and creates no further fill for that id. -/
theorem replyHandler_filled_preserved (st : State) (m : IBMessage)
    (id : Nat) (e : FillEntry)
    (hid : alookup st.fill_dict id = some e) (hf : e.filled = true)
    (st' : State) (evs : List Event) (ids : List Nat)
    (h : replyHandler st m = .ok (st', evs, ids)) :
    (∃ e', alookup st'.fill_dict id = some e' ∧ e'.filled = true) ∧
    id ∉ ids := by
  unfold replyHandler at h
  split at h
  · rename_i oid sym exch act
    split at h
    · rename_i hguard
      obtain ⟨h1, h2⟩ := Prod.mk.inj (Except.ok.inj h)
      obtain ⟨_, hids⟩ := Prod.mk.inj h2
      have hne : oid ≠ id := by
        intro hh
        rw [hh] at hguard
        rw [hid] at hguard
        exact absurd hguard.2 (by simp)
      refine ⟨⟨e, ?_, hf⟩, by rw [← hids]; simp⟩
      rw [← h1]
      unfold create_fill_dict_entry
      dsimp only
      rw [alookup_aset_ne _ oid id _ hne]
      exact hid
    · obtain ⟨h1, h2⟩ := Prod.mk.inj (Except.ok.inj h)
      obtain ⟨_, hids⟩ := Prod.mk.inj h2
      exact ⟨⟨e, h1 ▸ hid, hf⟩, by rw [← hids]; simp⟩
  · rename_i oid status fq px
    split at h
    · rename_i hguard
      have hne : oid ≠ id := by
        intro hh
        rw [hh, hid] at hguard
        have hmf : e.filled = false := by
          have h2 := hguard.2
          simpa using h2
        rw [hf] at hmf
        exact Bool.noConfusion hmf
      unfold create_fill at h
      rcases hfd : alookup st.fill_dict oid with _ | fd
      · rw [hfd] at h
        exact absurd h (by simp)
      · rw [hfd] at h
        dsimp only at h
        obtain ⟨h1, h2⟩ := Prod.mk.inj (Except.ok.inj h)
        obtain ⟨_, hids⟩ := Prod.mk.inj h2
        refine ⟨⟨e, ?_, hf⟩, ?_⟩
        · rw [← h1]
          dsimp only
          rw [alookup_aset_ne _ oid id _ hne]
          exact hid
        · rw [← hids]
          intro hmem
          exact hne (List.mem_singleton.mp hmem).symm
    · obtain ⟨h1, h2⟩ := Prod.mk.inj (Except.ok.inj h)
      obtain ⟨_, hids⟩ := Prod.mk.inj h2
      exact ⟨⟨e, h1 ▸ hid, hf⟩, by rw [← hids]; simp⟩
  · obtain ⟨h1, h2⟩ := Prod.mk.inj (Except.ok.inj h)
    obtain ⟨_, hids⟩ := Prod.mk.inj h2
    exact ⟨⟨e, h1 ▸ hid, hf⟩, by rw [← hids]; simp⟩

/-- Once an order id's entry has `filled = True`, a whole session of further
replies never creates a fill for that id. -/
theorem processMessages_no_fill_after_filled (msgs : List IBMessage)
    (st : State) (id : Nat) (e : FillEntry)
    (hid : alookup st.fill_dict id = some e) (hf : e.filled = true) :
    id ∉ (processMessages msgs st).2.2 := by
  induction msgs generalizing st e with
  | nil => simp [processMessages]
  | cons m rest ih =>
      unfold processMessages
      rcases hr : replyHandler st m with er | ⟨st1, evs, ids⟩
      · simp
      · dsimp only
        obtain ⟨⟨e', hid', hf'⟩, hnotin⟩ :=
          replyHandler_filled_preserved st m id e hid hf st1 evs ids hr
        intro hmem
        rcases List.mem_append.mp hmem with hmem | hmem
        · exact hnotin hmem
        · exact ih st1 e' hid' hf' hmem

end IBExecutionHandler

/-- C8: the broker reply path emits at most one FillEvent per order id.
A `"Filled"` order-status notification whose fill-state entry still has
`filled = False` creates and enqueues exactly one `FillEvent` and sets the
flag `True`; one whose entry already has `filled = True` emits nothing and
leaves the state unchanged; and across any session of replies the list of
order ids for which fills were created has no duplicates. -/
theorem ib_fill_emitted_at_most_once (st : IBExecutionHandler.State)
    (msgs : List IBExecutionHandler.IBMessage) :
    (IBExecutionHandler.processMessages msgs st).2.2.Nodup ∧
    (∀ (id fq : Nat) (px : ℚ) (e : IBExecutionHandler.FillEntry),
      alookup st.fill_dict id = some e → e.filled = false →
      IBExecutionHandler.replyHandler st (.orderStatus id "Filled" fq px)
        = .ok ({ st with fill_dict := aset st.fill_dict id { e with filled := true } },
               [Event.fill ⟨0, e.symbol, e.exchange, fq, e.direction, px⟩],
               [id])) ∧
    (∀ (id fq : Nat) (px : ℚ) (e : IBExecutionHandler.FillEntry),
      alookup st.fill_dict id = some e → e.filled = true →
      IBExecutionHandler.replyHandler st (.orderStatus id "Filled" fq px)
        = .ok (st, [], [])) := by
  refine ⟨?_, ?_, ?_⟩
  · induction msgs generalizing st with
    | nil => simp [IBExecutionHandler.processMessages]
    | cons m rest ih =>
        unfold IBExecutionHandler.processMessages
        rcases hr : IBExecutionHandler.replyHandler st m
            with er | ⟨st1, evs, ids⟩
        · simp
        · dsimp only
          rcases IBExecutionHandler.replyHandler_ids st m st1 evs ids hr
              with hids | ⟨oid, e', hids, hid', hf'⟩
          · subst hids
            simpa using ih st1
          · subst hids
            simp only [List.singleton_append, List.nodup_cons]
            exact ⟨IBExecutionHandler.processMessages_no_fill_after_filled
                rest st1 oid e' hid' hf', ih st1⟩
  · intro id fq px e hid hf
    unfold IBExecutionHandler.replyHandler
    dsimp only
    rw [if_pos ⟨rfl, by rw [hid]; simp [hf]⟩]
    unfold IBExecutionHandler.create_fill
    rw [hid]
  · intro id fq px e hid hf
    have hng : ¬ (("Filled" : String) = "Filled" ∧
        Option.map IBExecutionHandler.FillEntry.filled
          (alookup st.fill_dict id) = some false) := by
      rintro ⟨_, habs⟩
      rw [hid] at habs
      simp [hf] at habs
    unfold IBExecutionHandler.replyHandler
    dsimp only
    rw [if_neg hng]

/-- The fill-state table for the C8 witness: order 7 accepted, not yet
filled. -/
def c8St : IBExecutionHandler.State :=
  { fill_dict := [(7, ⟨"AAPL", "SMART", "BUY", false⟩)], order_id := 8 }

/-- Witness for C8: two consecutive `"Filled"` notifications for order 7 —
the first creates exactly one FillEvent and flips the flag, the session's
created-fill id list is the duplicate-free `[7]`. -/
theorem ib_fill_emitted_at_most_once_witness :
    alookup c8St.fill_dict 7 = some ⟨"AAPL", "SMART", "BUY", false⟩ ∧
    IBExecutionHandler.replyHandler c8St (.orderStatus 7 "Filled" 5 10)
      = .ok ({ c8St with fill_dict := aset c8St.fill_dict 7 ⟨"AAPL", "SMART", "BUY", true⟩ },
             [Event.fill ⟨0, "AAPL", "SMART", 5, "BUY", 10⟩], [7]) ∧
    (IBExecutionHandler.processMessages
      [.orderStatus 7 "Filled" 5 10, .orderStatus 7 "Filled" 5 10]
      c8St).2.2.Nodup := by
  refine ⟨rfl, ?_, (ib_fill_emitted_at_most_once c8St
    [.orderStatus 7 "Filled" 5 10, .orderStatus 7 "Filled" 5 10]).1⟩
  exact (ib_fill_emitted_at_most_once c8St []).2.1 7 5 10
    ⟨"AAPL", "SMART", "BUY", false⟩ rfl rfl

/-! ## Claims C6 and C7 -/

namespace IntradayOLSMRStrategy

/-- Whenever `calculate_xy_signals` produces a signal pair, the y-leg
strength is `1.0`; an `EXIT` x-leg (an exit transition) also has y-leg
`EXIT` and x-leg strength `1.0`, while a non-`EXIT` x-leg (an entry) has
strength `|hedge_ratio|`; and the hedge ratio is passed through
unchanged. -/
theorem calculate_xy_signals_strengths (st : State) (z : ℚ) (st2 : State)
    (sy sx : SignalEvent)
    (h : calculate_xy_signals st z = (st2, some sy, some sx)) :
    sy.strength = 1 ∧
    (sx.signal_type = Direction.EXIT →
      sy.signal_type = Direction.EXIT ∧ sx.strength = 1) ∧
    (sx.signal_type ≠ Direction.EXIT → sx.strength = |st.hedge_ratio|) ∧
    st2.hedge_ratio = st.hedge_ratio := by
  unfold calculate_xy_signals at h
  dsimp only at h
  split at h
  · obtain ⟨h1, h2⟩ := Prod.mk.inj h
    obtain ⟨hy, hx⟩ := Prod.mk.inj h2
    obtain rfl := Option.some.inj hy
    obtain rfl := Option.some.inj hx
    subst h1
    exact ⟨rfl, by simp, fun _ => rfl, rfl⟩
  · split at h
    · obtain ⟨h1, h2⟩ := Prod.mk.inj h
      obtain ⟨hy, hx⟩ := Prod.mk.inj h2
      obtain rfl := Option.some.inj hy
      obtain rfl := Option.some.inj hx
      subst h1
      exact ⟨rfl, fun _ => ⟨rfl, rfl⟩, by simp, rfl⟩
    · split at h
      · obtain ⟨h1, h2⟩ := Prod.mk.inj h
        obtain ⟨hy, hx⟩ := Prod.mk.inj h2
        obtain rfl := Option.some.inj hy
        obtain rfl := Option.some.inj hx
        subst h1
        exact ⟨rfl, by simp, fun _ => rfl, rfl⟩
      · split at h
        · obtain ⟨h1, h2⟩ := Prod.mk.inj h
          obtain ⟨hy, hx⟩ := Prod.mk.inj h2
          obtain rfl := Option.some.inj hy
          obtain rfl := Option.some.inj hx
          subst h1
          exact ⟨rfl, fun _ => ⟨rfl, rfl⟩, by simp, rfl⟩
        · obtain ⟨_, h2⟩ := Prod.mk.inj h
          obtain ⟨hy, _⟩ := Prod.mk.inj h2
          exact absurd hy (by simp)

/-- `calculate_xy_signals` produces both legs or neither. -/
theorem calculate_xy_signals_linked (st : State) (z : ℚ) :
    ((calculate_xy_signals st z).2.1 = none ↔
      (calculate_xy_signals st z).2.2 = none) := by
  unfold calculate_xy_signals
  dsimp only
  split
  · simp
  · split
    · simp
    · split
      · simp
      · split
        · simp
        · simp

end IntradayOLSMRStrategy

/-- The pairs-strategy state used in the C6 theorems: flat (neither long nor
short), default-style thresholds `low = 1/2 < high = 3`, hedge ratio `2`. -/
def c6St : IntradayOLSMRStrategy.State :=
  { ols_window := 100,
    zscore_low := 1 / 2,
    zscore_high := 3,
    pair := ("AREX", "WLL"),
    long_market := false,
    short_market := false,
    hedge_ratio := 2 }

/-- C6 counterexample: from the flat state, at `z = -3 ≤ -zscore_high`, the
code *enters long-y / short-x* (`y` gets `LONG`, `x` gets `SHORT`), not
"short-y/long-x" as the claim states; the two entry descriptions in the
claim are swapped relative to the code. -/
theorem pairs_enter_direction_swapped :
    ((-3 : ℚ) ≤ -c6St.zscore_high ∧ c6St.long_market = false) ∧
    IntradayOLSMRStrategy.calculate_xy_signals c6St (-3)
      = ({ c6St with long_market := true },
         some ⟨1, "AREX", 0, .LONG, 1⟩, some ⟨1, "WLL", 0, .SHORT, 2⟩) ∧
    Direction.LONG ≠ Direction.SHORT := by
  refine ⟨⟨by norm_num [c6St], rfl⟩, ?_, by decide⟩
  unfold IntradayOLSMRStrategy.calculate_xy_signals
  norm_num [c6St]

/-- C6 (amended): with `0 < zscore_low < zscore_high` and the long/short
flags not simultaneously set, `calculate_xy_signals` applies four mutually
exclusive transition rules: it enters *long-y/short-x* when
`z ≤ -zscore_high` and not already long; exits to flat when
`|z| ≤ zscore_low` and currently long; enters *short-y/long-x* when
`z ≥ zscore_high` and not already short; exits to flat when
`|z| ≤ zscore_low` and currently short; and in every other case emits no
signals and leaves the state unchanged. -/
theorem pairs_four_transition_rules (st : IntradayOLSMRStrategy.State)
    (z : ℚ) (hlow : 0 < st.zscore_low) (hlh : st.zscore_low < st.zscore_high)
    (hflags : ¬ (st.long_market = true ∧ st.short_market = true)) :
    (z ≤ -st.zscore_high ∧ st.long_market = false →
      IntradayOLSMRStrategy.calculate_xy_signals st z
        = ({ st with long_market := true },
           some ⟨1, st.pair.1, 0, .LONG, 1⟩,
           some ⟨1, st.pair.2, 0, .SHORT, |st.hedge_ratio|⟩)) ∧
    (|z| ≤ st.zscore_low ∧ st.long_market = true →
      IntradayOLSMRStrategy.calculate_xy_signals st z
        = ({ st with long_market := false },
           some ⟨1, st.pair.1, 0, .EXIT, 1⟩,
           some ⟨1, st.pair.2, 0, .EXIT, 1⟩)) ∧
    (z ≥ st.zscore_high ∧ st.short_market = false →
      IntradayOLSMRStrategy.calculate_xy_signals st z
        = ({ st with short_market := true },
           some ⟨1, st.pair.1, 0, .SHORT, 1⟩,
           some ⟨1, st.pair.2, 0, .LONG, |st.hedge_ratio|⟩)) ∧
    (|z| ≤ st.zscore_low ∧ st.short_market = true →
      IntradayOLSMRStrategy.calculate_xy_signals st z
        = ({ st with short_market := false },
           some ⟨1, st.pair.1, 0, .EXIT, 1⟩,
           some ⟨1, st.pair.2, 0, .EXIT, 1⟩)) ∧
    (¬ (z ≤ -st.zscore_high ∧ st.long_market = false) →
     ¬ (|z| ≤ st.zscore_low ∧ st.long_market = true) →
     ¬ (z ≥ st.zscore_high ∧ st.short_market = false) →
     ¬ (|z| ≤ st.zscore_low ∧ st.short_market = true) →
      IntradayOLSMRStrategy.calculate_xy_signals st z = (st, none, none)) := by
  have hhigh : 0 < st.zscore_high := lt_trans hlow hlh
  refine ⟨?_, ?_, ?_, ?_, ?_⟩
  · intro hc
    unfold IntradayOLSMRStrategy.calculate_xy_signals
    rw [if_pos hc]
  · intro hc
    have hn1 : ¬ (z ≤ -st.zscore_high ∧ st.long_market = false) := by
      rintro ⟨_, hf⟩
      rw [hc.2] at hf
      exact Bool.noConfusion hf
    unfold IntradayOLSMRStrategy.calculate_xy_signals
    rw [if_neg hn1, if_pos hc]
  · intro hc
    obtain ⟨hz, hsf⟩ := hc
    have hn1 : ¬ (z ≤ -st.zscore_high ∧ st.long_market = false) := by
      rintro ⟨hz', _⟩
      linarith
    have hn2 : ¬ (|z| ≤ st.zscore_low ∧ st.long_market = true) := by
      rintro ⟨ha, _⟩
      have := le_abs_self z
      linarith
    unfold IntradayOLSMRStrategy.calculate_xy_signals
    rw [if_neg hn1, if_neg hn2, if_pos ⟨hz, hsf⟩]
  · intro hc
    obtain ⟨ha, hsf⟩ := hc
    obtain ⟨hal, har⟩ := abs_le.mp ha
    have hn1 : ¬ (z ≤ -st.zscore_high ∧ st.long_market = false) := by
      rintro ⟨hz', _⟩
      linarith
    have hn2 : ¬ (|z| ≤ st.zscore_low ∧ st.long_market = true) := by
      rintro ⟨_, hl⟩
      exact hflags ⟨hl, hsf⟩
    have hn3 : ¬ (z ≥ st.zscore_high ∧ st.short_market = false) := by
      rintro ⟨hz', _⟩
      linarith
    unfold IntradayOLSMRStrategy.calculate_xy_signals
    rw [if_neg hn1, if_neg hn2, if_neg hn3, if_pos ⟨ha, hsf⟩]
  · intro h1 h2 h3 h4
    unfold IntradayOLSMRStrategy.calculate_xy_signals
    rw [if_neg h1, if_neg h2, if_neg h3, if_neg h4]

/-- Witness for the amended C6: rule 3 (enter short-y/long-x) fires at
`z = 3` from the flat state `c6St`. -/
theorem pairs_four_transition_rules_witness :
    (0 : ℚ) < c6St.zscore_low ∧ c6St.zscore_low < c6St.zscore_high ∧
    ¬ (c6St.long_market = true ∧ c6St.short_market = true) ∧
    ((3 : ℚ) ≥ c6St.zscore_high ∧ c6St.short_market = false →
      IntradayOLSMRStrategy.calculate_xy_signals c6St 3
        = ({ c6St with short_market := true },
           some ⟨1, c6St.pair.1, 0, .SHORT, 1⟩,
           some ⟨1, c6St.pair.2, 0, .LONG, |c6St.hedge_ratio|⟩)) := by
  have hlow : (0 : ℚ) < c6St.zscore_low := by norm_num [c6St]
  have hlh : c6St.zscore_low < c6St.zscore_high := by norm_num [c6St]
  have hflags : ¬ (c6St.long_market = true ∧ c6St.short_market = true) := by
    simp [c6St]
  exact ⟨hlow, hlh, hflags,
    (pairs_four_transition_rules c6St 3 hlow hlh hflags).2.2.1⟩

/-- The pairs-strategy state used in the C7 theorems: currently long the
market, hedge ratio `2`. -/
def c7St : IntradayOLSMRStrategy.State :=
  { ols_window := 100,
    zscore_low := 1 / 2,
    zscore_high := 3,
    pair := ("AREX", "WLL"),
    long_market := true,
    short_market := false,
    hedge_ratio := 2 }

/-- C7 counterexample: the exit transition at `z = 0` while long is a
triggered transition that emits two linked signals, but the x-leg strength
is `1.0`, not `|hedge_ratio| = 2` — the "x-leg strength equal to the
absolute hedge ratio" part of the claim only holds for entry
transitions. -/
theorem pairs_exit_strength_one :
    IntradayOLSMRStrategy.calculate_xy_signals c7St 0
      = ({ c7St with long_market := false },
         some ⟨1, "AREX", 0, .EXIT, 1⟩, some ⟨1, "WLL", 0, .EXIT, 1⟩) ∧
    |c7St.hedge_ratio| = 2 ∧ (1 : ℚ) ≠ 2 := by
  refine ⟨?_, by norm_num [c7St], by norm_num⟩
  unfold IntradayOLSMRStrategy.calculate_xy_signals
  norm_num [c7St]

/-- C7 (amended): every triggered transition emits exactly two linked
SignalEvents — `calculate_xy_signals` returns both legs or neither, and
`calculate_signals_for_pairs` enqueues either nothing or exactly the
`[y, x]` pair.  The y-leg strength is always `1.0`; the x-leg strength is
`|hedge_ratio|` on entry transitions but `1.0` (not the absolute hedge
ratio) on exit transitions. -/
theorem pairs_transition_linked_pair (st : IntradayOLSMRStrategy.State)
    (z : ℚ) :
    ((IntradayOLSMRStrategy.calculate_xy_signals st z).2.1 = none ↔
      (IntradayOLSMRStrategy.calculate_xy_signals st z).2.2 = none) ∧
    (∀ sy sx : SignalEvent,
      (IntradayOLSMRStrategy.calculate_xy_signals st z).2.1 = some sy →
      (IntradayOLSMRStrategy.calculate_xy_signals st z).2.2 = some sx →
      sy.strength = 1 ∧
      (sx.signal_type = Direction.EXIT →
        sy.signal_type = Direction.EXIT ∧ sx.strength = 1) ∧
      (sx.signal_type ≠ Direction.EXIT → sx.strength = |st.hedge_ratio|)) ∧
    (∀ (getValues : String → Nat → Except PyError (List ℚ))
       (hedgeFn : List ℚ → List ℚ → ℚ)
       (zscoreFn : List ℚ → List ℚ → ℚ → ℚ)
       (st' : IntradayOLSMRStrategy.State) (evs : List Event),
      IntradayOLSMRStrategy.calculate_signals_for_pairs getValues hedgeFn
        zscoreFn st = .ok (st', evs) →
      evs = [] ∨ ∃ sy sx : SignalEvent,
        evs = [Event.signal sy, Event.signal sx] ∧ sy.strength = 1 ∧
        (sx.signal_type = Direction.EXIT → sx.strength = 1) ∧
        (sx.signal_type ≠ Direction.EXIT →
          sx.strength = |st'.hedge_ratio|)) := by
  refine ⟨IntradayOLSMRStrategy.calculate_xy_signals_linked st z, ?_, ?_⟩
  · intro sy sx h1 h2
    rcases hxy : IntradayOLSMRStrategy.calculate_xy_signals st z
        with ⟨st2, oy, ox⟩
    rw [hxy] at h1 h2
    dsimp only at h1 h2
    subst h1
    subst h2
    obtain ⟨p1, p2, p3, _⟩ :=
      IntradayOLSMRStrategy.calculate_xy_signals_strengths st z st2 sy sx hxy
    exact ⟨p1, p2, p3⟩
  · intro getValues hedgeFn zscoreFn st' evs h
    unfold IntradayOLSMRStrategy.calculate_signals_for_pairs at h
    split at h
    · exact absurd h (by simp)
    · split at h
      · exact absurd h (by simp)
      · split at h
        · dsimp only at h
          split at h
          · rename_i st2 y_signal x_signal heq
            obtain ⟨h1, h2⟩ := Prod.mk.inj (Except.ok.inj h)
            subst h2
            right
            refine ⟨y_signal, x_signal, rfl, ?_⟩
            obtain ⟨p1, p2, p3, p4⟩ :=
              IntradayOLSMRStrategy.calculate_xy_signals_strengths _ _ st2
                y_signal x_signal heq
            subst h1
            refine ⟨p1, fun hx => (p2 hx).2, fun hx => ?_⟩
            rw [p3 hx, ← p4]
          · obtain ⟨_, h2⟩ := Prod.mk.inj (Except.ok.inj h)
            subst h2
            left
            rfl
        · obtain ⟨_, h2⟩ := Prod.mk.inj (Except.ok.inj h)
          subst h2
          left
          rfl

/-- Witness for the amended C7 at the exit transition of `c7St` with
`z = 0`. -/
theorem pairs_transition_linked_pair_witness :
    (IntradayOLSMRStrategy.calculate_xy_signals c7St 0).2.1
      = some ⟨1, "AREX", 0, .EXIT, 1⟩ ∧
    (IntradayOLSMRStrategy.calculate_xy_signals c7St 0).2.2
      = some ⟨1, "WLL", 0, .EXIT, 1⟩ ∧
    SignalEvent.strength ⟨1, "AREX", 0, .EXIT, 1⟩ = 1 := by
  have hxy : IntradayOLSMRStrategy.calculate_xy_signals c7St 0
      = ({ c7St with long_market := false },
         some ⟨1, "AREX", 0, .EXIT, 1⟩, some ⟨1, "WLL", 0, .EXIT, 1⟩) := by
    unfold IntradayOLSMRStrategy.calculate_xy_signals
    norm_num [c7St]
  have hy : (IntradayOLSMRStrategy.calculate_xy_signals c7St 0).2.1
      = some ⟨1, "AREX", 0, .EXIT, 1⟩ := by rw [hxy]
  have hx : (IntradayOLSMRStrategy.calculate_xy_signals c7St 0).2.2
      = some ⟨1, "WLL", 0, .EXIT, 1⟩ := by rw [hxy]
  exact ⟨hy, hx,
    ((pairs_transition_linked_pair c7St 0).2.1 _ _ hy hx).1⟩

/-- C5 failing input, evaluated: the short mean is strictly above the long
mean and the symbol is flat (its `bought` entry is the initial `'OUT'`), yet
`calculate_signals` emits nothing and leaves the flag at `'OUT'` — because
`not self.bought[symbol]` is `False` for the truthy string `'OUT'`.  The
claim (and the source comment "Set to True if a symbol is in the market")
expects exactly one LONG signal and the flag flipped to `True`. -/
theorem mac_out_blocks_long_entry :
    qmean (pyLastSlice [(1 : ℚ), 2] c5Mac.short_window) >
      qmean (pyLastSlice [(1 : ℚ), 2] c5Mac.long_window) ∧
    alookup c5Mac.bought "A" = some .out ∧
    MovingAverageCrossStrategy.calculate_signals c5Dh c5Mac Event.market
      = (c5Mac, [], none) := by
  have hbars : HistoricCSVDataHandler.get_latest_bars_values c5Dh "A"
      BarField.adj_close 2 = .ok [1, 2] := by
    simp [HistoricCSVDataHandler.get_latest_bars_values,
      HistoricCSVDataHandler.get_latest_bars, c5Dh, c5Bar1, c5Bar2,
      alookup, pyLastSlice, getField]
  have hdt : HistoricCSVDataHandler.get_latest_bar_datetime c5Dh "A"
      = .ok 2 := by
    simp [HistoricCSVDataHandler.get_latest_bar_datetime, c5Dh, c5Bar1,
      c5Bar2, alookup]
  have hshort : qmean (pyLastSlice [(1 : ℚ), 2] 1) = 2 := by
    norm_num [qmean, pyLastSlice]
  have hlong : qmean (pyLastSlice [(1 : ℚ), 2] 2) = 3 / 2 := by
    norm_num [qmean, pyLastSlice]
  have hnlt : ¬ (qmean (pyLastSlice [(1 : ℚ), 2] 1) <
      qmean (pyLastSlice [(1 : ℚ), 2] 2)) := by
    rw [hshort, hlong]
    norm_num
  have hsym : MovingAverageCrossStrategy.calcSignalsSym c5Dh c5Mac "A"
      = .ok (c5Mac, []) := by
    unfold MovingAverageCrossStrategy.calcSignalsSym
    rw [show c5Mac.long_window = 2 from rfl,
      show c5Mac.short_window = 1 from rfl, hbars, hdt]
    simp [c5Mac, alookup, MovingAverageCrossStrategy.truthy, hnlt]
  refine ⟨?_, by decide, ?_⟩
  · rw [show c5Mac.short_window = 1 from rfl,
      show c5Mac.long_window = 2 from rfl, hshort, hlong]
    norm_num
  · unfold MovingAverageCrossStrategy.calculate_signals
    rw [show c5Mac.symbol_list = ["A"] from rfl]
    unfold MovingAverageCrossStrategy.calcSignalsLoop
    rw [hsym]
    simp [MovingAverageCrossStrategy.calcSignalsLoop]
